import Mathlib

/-!
Shallow embedding of the RustyGear ECS core (SampleApp/src): the generational
slot allocator (`entity.rs`), the generic component store (`component.rs`), the
world aggregate with deferred creation/destruction queues (`ecs.rs`) and the
system scheduler (`systems/system.rs`).

Modelling conventions:
* `usize`/`u64` are modelled as `Nat`; the `generation += 1` increment on a
  `u64` is guarded (overflow at `2 ^ 64` is a fault, matching checked/debug
  overflow semantics), so generations stay inside the `u64` range.
* Rust panics are modelled as `Except`/`Option` failures.
* `Vec<usize>` used as a LIFO stack (`push`/`pop` at the end) is modelled as a
  `List` whose head is the top of the stack.
* `HashSet<EntityId>` is modelled as `Finset EntityId`, `VecDeque` as a `List`
  whose head is the front.
* In `ecs.rs`, `add_component` and `clear_component` pass `Some(component)`
  and `None` to `ComponentSet::set`, so at the world level each registered
  store's payload type is an `Option` of the component value: clearing writes
  a *present* entry whose payload is empty, tagged with the cleared id's
  generation.  The world below instantiates `ComponentSet (Option _)`
  accordingly.
-/

/-- `entity.rs` — `EntityId { index: usize, generation: u64 }`. -/
structure EntityId where
  index : Nat
  generation : Nat
deriving DecidableEq

/-- `entity.rs` — `EntityAllocator`.  `entries` keeps only the per-slot
generation counter (the Rust `AllocatorEntry` has a single field). -/
structure EntityAllocator where
  entries : List Nat
  free : List Nat
  max_size : Nat
  active_entities : Finset EntityId
deriving DecidableEq

/-- The distinct panics of `entity.rs`, plus the checked-overflow fault of the
`u64` generation increment. -/
inductive AllocError where
  | capacityExceeded
  | duplicateActive
  | notLive
  | emptyFree
  | genOverflow
deriving DecidableEq

deriving instance DecidableEq for Except

namespace EntityAllocator

/-- `EntityAllocator::new`. -/
def new (max_size : Nat) : EntityAllocator :=
  ⟨[], [], max_size, ∅⟩

/-- `entity.rs` — `add_new_entry`: panics (capacity) when
`entries.len() >= max_size`; otherwise mints index `entries.len()` with
generation `0` and pushes a fresh slot. -/
def add_new_entry (a : EntityAllocator) : Except AllocError (EntityId × EntityAllocator) :=
  if a.max_size ≤ a.entries.length then .error .capacityExceeded
  else .ok (⟨a.entries.length, 0⟩, { a with entries := a.entries ++ [0] })

/-- `entity.rs` — `reuse_entry`: pops the most recently freed index
(`free.pop().unwrap()`, a panic on an empty free list — unreachable from
`allocate`), increments that slot's stored generation (checked `u64`
increment) and returns the id with the new generation. -/
def reuse_entry (a : EntityAllocator) : Except AllocError (EntityId × EntityAllocator) :=
  match a.free with
  | [] => .error .emptyFree
  | i :: rest =>
    let g := a.entries.getD i 0
    if g + 1 < 2 ^ 64 then
      .ok (⟨i, g + 1⟩, { a with entries := a.entries.set i (g + 1), free := rest })
    else .error .genOverflow

/-- `entity.rs` — `allocate`: mint (`free.is_empty()`) or reuse, then insert
into the live set; inserting an already-live id panics. -/
def allocate (a : EntityAllocator) : Except AllocError (EntityId × EntityAllocator) :=
  match (match a.free with
    | [] => add_new_entry a
    | _ :: _ => reuse_entry a) with
  | .error e => .error e
  | .ok (id, a1) =>
    if id ∈ a1.active_entities then .error .duplicateActive
    else .ok (id, { a1 with active_entities := insert id a1.active_entities })

/-- `entity.rs` — `deallocate`: removing a non-live id panics; otherwise the
id leaves the live set and its index is pushed on the free list. -/
def deallocate (a : EntityAllocator) (id : EntityId) : Except AllocError EntityAllocator :=
  if id ∈ a.active_entities then
    .ok { a with active_entities := a.active_entities.erase id, free := id.index :: a.free }
  else .error .notLive

end EntityAllocator

/-- `component.rs` — `ArrayEntry<T> { value, generation }`. -/
structure ArrayEntry (α : Type u) where
  value : α
  generation : Nat
deriving DecidableEq

/-- `component.rs` — `ComponentSet<T> { entries: Vec<Option<ArrayEntry<T>>> }`. -/
structure ComponentSet (α : Type u) where
  entries : List (Option (ArrayEntry α))
deriving DecidableEq

namespace ComponentSet

/-- `ComponentSet::new(max_size)`: `max_size` empty slots. -/
def new (max_size : Nat) : ComponentSet α :=
  ⟨List.replicate max_size none⟩

/-- `ComponentSet::set`: writes `value` tagged with `gen_index.generation` at
`gen_index.index`, overwriting whatever entry was there. -/
def set (s : ComponentSet α) (gen_index : EntityId) (value : α) : ComponentSet α :=
  ⟨s.entries.set gen_index.index (some ⟨value, gen_index.generation⟩)⟩

/-- `ComponentSet::get`: the stored value, provided an entry exists at
`gen_index.index` and its generation matches. -/
def get (s : ComponentSet α) (gen_index : EntityId) : Option α :=
  match s.entries.getD gen_index.index none with
  | none => none
  | some e => if e.generation = gen_index.generation then some e.value else none

/-- `ecs.rs` — `clear_component::<T>` acts on the store for `T` by calling
`set(&entityId, None)`: the world-level payload type is an `Option`, and the
slot receives a present entry with empty payload at the id's generation. -/
def clear (s : ComponentSet (Option β)) (gen_index : EntityId) : ComponentSet (Option β) :=
  s.set gen_index none

theorem length_set (s : ComponentSet α) (id : EntityId) (v : α) :
    (s.set id v).entries.length = s.entries.length := by
  simp [set]

end ComponentSet

/-- The resolved form of a prefab document: a JSON object whose recognized
top-level fields are the four registered component kinds ("Transform",
"Camera", "Controller", "Mesh"); unrecognized fields are ignored by
`create_entity`'s key loop. -/
structure Prefab (T C K M : Type u) where
  transform : Option T
  camera : Option K
  controller : Option C
  mesh : Option M
deriving DecidableEq

/-- Association-list lookup for the prefab table
(`self.resources.prefabs[prefab]`); a missing key is a fault in the source
(`HashMap` indexing panics), surfaced as `none` by the callers below. -/
def findPrefab {T C K M : Type u} (l : List (String × Prefab T C K M)) (name : String) :
    Option (Prefab T C K M) :=
  match l with
  | [] => none
  | (k, p) :: rest => if k = name then some p else findPrefab rest name

/-- `ecs.rs` — `EntityComponentSystem`.  The `AnyMap` holds exactly the four
stores registered in `new`; they are split into one field per kind here.  Per
the `Some`/`None` arguments of `add_component`/`clear_component`, each store's
payload is an `Option` of the component value type. -/
structure EntityComponentSystem (T C K M : Type u) where
  entity_allocator : EntityAllocator
  transform_set : ComponentSet (Option T)
  controller_set : ComponentSet (Option C)
  camera_set : ComponentSet (Option K)
  mesh_set : ComponentSet (Option M)
  cameras : Finset EntityId
  entities_to_create : List String
  entities_to_destroy : List EntityId
  resources : List (String × Prefab T C K M)
deriving DecidableEq

namespace EntityComponentSystem

variable {T C K M : Type u}

/-- `EntityComponentSystem::new(max_entities, resources)`. -/
def new (max_entities : Nat) (resources : List (String × Prefab T C K M)) :
    EntityComponentSystem T C K M :=
  ⟨EntityAllocator.new max_entities, ComponentSet.new max_entities,
    ComponentSet.new max_entities, ComponentSet.new max_entities,
    ComponentSet.new max_entities, ∅, [], [], resources⟩

/-- `ecs.rs` — `add_entity`: push the prefab name on the creation queue. -/
def add_entity (w : EntityComponentSystem T C K M) (prefab : String) :
    EntityComponentSystem T C K M :=
  { w with entities_to_create := w.entities_to_create ++ [prefab] }

/-- `ecs.rs` — `remove_entity`: push the id on the destruction queue. -/
def remove_entity (w : EntityComponentSystem T C K M) (entity : EntityId) :
    EntityComponentSystem T C K M :=
  { w with entities_to_destroy := w.entities_to_destroy ++ [entity] }

/-- `ecs.rs` — `has_component::<Transform>`: the store's `get` succeeds. -/
def has_transform (w : EntityComponentSystem T C K M) (e : EntityId) : Bool :=
  (w.transform_set.get e).isSome

/-- `ecs.rs` — `has_component::<Controller>`. -/
def has_controller (w : EntityComponentSystem T C K M) (e : EntityId) : Bool :=
  (w.controller_set.get e).isSome

/-- `ecs.rs` — `has_component::<Camera>`. -/
def has_camera (w : EntityComponentSystem T C K M) (e : EntityId) : Bool :=
  (w.camera_set.get e).isSome

/-- `ecs.rs` — `has_component::<Mesh>`. -/
def has_mesh (w : EntityComponentSystem T C K M) (e : EntityId) : Bool :=
  (w.mesh_set.get e).isSome

/-- `ecs.rs` — `clear_component::<Transform>`: `set(&entityId, None)`. -/
def clear_transform (w : EntityComponentSystem T C K M) (e : EntityId) :
    EntityComponentSystem T C K M :=
  { w with transform_set := w.transform_set.clear e }

/-- `ecs.rs` — `clear_component::<Camera>`. -/
def clear_camera (w : EntityComponentSystem T C K M) (e : EntityId) :
    EntityComponentSystem T C K M :=
  { w with camera_set := w.camera_set.clear e }

/-- `ecs.rs` — `clear_component::<Controller>`. -/
def clear_controller (w : EntityComponentSystem T C K M) (e : EntityId) :
    EntityComponentSystem T C K M :=
  { w with controller_set := w.controller_set.clear e }

/-- `ecs.rs` — `clear_component::<Mesh>`. -/
def clear_mesh (w : EntityComponentSystem T C K M) (e : EntityId) :
    EntityComponentSystem T C K M :=
  { w with mesh_set := w.mesh_set.clear e }

/-- The `"Transform"` arm of `create_entity`'s key loop: `add_component`
(`set` with `Some(..)`) when the prefab declares a Transform. -/
def write_transform (w : EntityComponentSystem T C K M) (entity : EntityId) :
    Option T → EntityComponentSystem T C K M
  | some t => { w with transform_set := w.transform_set.set entity (some t) }
  | none => w

/-- The `"Camera"` arm of `create_entity`'s key loop. -/
def write_camera (w : EntityComponentSystem T C K M) (entity : EntityId) :
    Option K → EntityComponentSystem T C K M
  | some c => { w with camera_set := w.camera_set.set entity (some c) }
  | none => w

/-- The `"Controller"` arm of `create_entity`'s key loop. -/
def write_controller (w : EntityComponentSystem T C K M) (entity : EntityId) :
    Option C → EntityComponentSystem T C K M
  | some c => { w with controller_set := w.controller_set.set entity (some c) }
  | none => w

/-- The `"Mesh"` arm of `create_entity`'s key loop. -/
def write_mesh (w : EntityComponentSystem T C K M) (entity : EntityId) :
    Option M → EntityComponentSystem T C K M
  | some m => { w with mesh_set := w.mesh_set.set entity (some m) }
  | none => w

/-- `ecs.rs` — `create_entity`: look the prefab up (indexing panics on a
missing key; non-object or undeserializable component data also panics),
allocate, `add_component` each declared kind (`set` with `Some(..)`), then
record the entity in `cameras` when `has_component::<Camera>` holds. -/
def create_entity (w : EntityComponentSystem T C K M) (prefab : String) :
    Option (EntityComponentSystem T C K M × EntityId) :=
  match findPrefab w.resources prefab with
  | none => none
  | some pre =>
    match w.entity_allocator.allocate with
    | .error _ => none
    | .ok (entity, alloc1) =>
      let w1 := { w with entity_allocator := alloc1 }
      let w5 := write_mesh (write_controller (write_camera (write_transform w1 entity
        pre.transform) entity pre.camera) entity pre.controller) entity pre.mesh
      let w6 := if w5.has_camera entity then { w5 with cameras := insert entity w5.cameras }
        else w5
      some (w6, entity)

/-- `ecs.rs` — `destroy_entity`: deallocate (a non-live id panics), then
clear the id from each of the four registered stores, in source order. -/
def destroy_entity (w : EntityComponentSystem T C K M) (entity : EntityId) :
    Option (EntityComponentSystem T C K M) :=
  match w.entity_allocator.deallocate entity with
  | .error _ => none
  | .ok alloc1 =>
    some (clear_mesh (clear_controller (clear_camera (clear_transform
      { w with entity_allocator := alloc1 } entity) entity) entity) entity)

/-- The destruction order stated by the spec: clear the id from every
registered Component Store, then deallocate it from the Allocator.  Used to
compare with the source's `destroy_entity`, which deallocates first. -/
def destroy_entity_spec (w : EntityComponentSystem T C K M) (entity : EntityId) :
    Option (EntityComponentSystem T C K M) :=
  let wc := clear_mesh (clear_controller (clear_camera (clear_transform w entity)
    entity) entity) entity
  match wc.entity_allocator.deallocate entity with
  | .error _ => none
  | .ok alloc1 => some { wc with entity_allocator := alloc1 }

/-- The `while` loop of `create_entities`, recursing on the drained queue.
`create_entity` never touches the creation queue, so draining it up front is
observationally the Rust `pop_front` loop. -/
def create_go (w : EntityComponentSystem T C K M) :
    List String → Option (EntityComponentSystem T C K M × List EntityId)
  | [] => some (w, [])
  | p :: rest =>
    match create_entity w p with
    | none => none
    | some (w1, id) =>
      match create_go w1 rest with
      | none => none
      | some (w2, ids) => some (w2, id :: ids)

/-- `ecs.rs` — `create_entities`: drain the creation queue in FIFO order,
returning the freshly created ids in issuance order. -/
def create_entities (w : EntityComponentSystem T C K M) :
    Option (EntityComponentSystem T C K M × List EntityId) :=
  create_go { w with entities_to_create := [] } w.entities_to_create

/-- The `while` loop of `destroy_entities`. -/
def destroy_go (w : EntityComponentSystem T C K M) :
    List EntityId → Option (EntityComponentSystem T C K M × List EntityId)
  | [] => some (w, [])
  | e :: rest =>
    match destroy_entity w e with
    | none => none
    | some w1 =>
      match destroy_go w1 rest with
      | none => none
      | some (w2, ids) => some (w2, e :: ids)

/-- `ecs.rs` — `destroy_entities`: drain the destruction queue in FIFO order,
returning the list of processed ids. -/
def destroy_entities (w : EntityComponentSystem T C K M) :
    Option (EntityComponentSystem T C K M × List EntityId) :=
  destroy_go { w with entities_to_destroy := [] } w.entities_to_destroy

/-- The spec-ordered variant of the destruction loop (clears before
deallocation for each id), for comparison with `destroy_go`. -/
def destroy_go_spec (w : EntityComponentSystem T C K M) :
    List EntityId → Option (EntityComponentSystem T C K M × List EntityId)
  | [] => some (w, [])
  | e :: rest =>
    match destroy_entity_spec w e with
    | none => none
    | some w1 =>
      match destroy_go_spec w1 rest with
      | none => none
      | some (w2, ids) => some (w2, e :: ids)

end EntityComponentSystem

/-- `systems/system.rs` — the two systems registered by `SystemManager::new`,
in registration order: `ControlSystem` then `RenderSystem`. -/
inductive SystemKind where
  | control
  | render
deriving DecidableEq

/-- `is_system_entity` of each system: `ControlSystem` requires Transform and
Controller; `RenderSystem` requires Transform and Mesh. -/
def isSystemEntity {T C K M : Type u} :
    SystemKind → EntityComponentSystem T C K M → EntityId → Bool
  | .control, w, e => w.has_transform e && w.has_controller e
  | .render, w, e => w.has_transform e && w.has_mesh e

/-- A `SystemManager` state: the ordered list of systems, each paired with
its matching entity set. -/
abbrev SystemManager :=
  List (SystemKind × Finset EntityId)

/-- `SystemManager::new`: ControlSystem and RenderSystem, empty sets. -/
def SystemManager.new : SystemManager :=
  [(.control, ∅), (.render, ∅)]

/-- `system.rs` — `remove_entities_from_systems`: for each drained id, remove
it from the matching set of every system whose `is_system_entity` holds for
it (computed on the post-destruction world). -/
def removeEntitiesFromSystems {T C K M : Type u} (entities : List EntityId)
    (w : EntityComponentSystem T C K M) (sm : SystemManager) :
    SystemManager :=
  entities.foldl
    (fun acc e => acc.map (fun p =>
      (p.1, if isSystemEntity p.1 w e then p.2.erase e else p.2))) sm

/-- `system.rs` — `add_entities_to_systems`: for each new id, insert it into
the matching set of every system whose `is_system_entity` holds for it. -/
def addEntitiesToSystems {T C K M : Type u} (entities : List EntityId)
    (w : EntityComponentSystem T C K M) (sm : SystemManager) :
    SystemManager :=
  entities.foldl
    (fun acc e => acc.map (fun p =>
      (p.1, if isSystemEntity p.1 w e then insert e p.2 else p.2))) sm

/-- The per-tick run phase: each system's `run` is invoked in registration
order.  A system's `run` receives the matching sets only behind an immutable
borrow (`&HashSet<EntityId>`), so its effect is a world transformation; the
transformations themselves (float arithmetic, GPU and input I/O) are
irrelevant to membership and are a parameter `runf` here. -/
def runPhase {T C K M : Type u} (runf : SystemKind → EntityComponentSystem T C K M →
    EntityComponentSystem T C K M) (sm : SystemManager)
    (w : EntityComponentSystem T C K M) : EntityComponentSystem T C K M :=
  sm.foldl (fun acc p => runf p.1 acc) w

/-- `system.rs` — `SystemManager::run`, one tick: drain destructions and
remove the drained ids from the systems' sets, drain creations and add the
new ids to the matching sets, then run each system in order. -/
def tick {T C K M : Type u} (runf : SystemKind → EntityComponentSystem T C K M →
    EntityComponentSystem T C K M) (sm : SystemManager)
    (w : EntityComponentSystem T C K M) :
    Option (SystemManager × EntityComponentSystem T C K M) :=
  match w.destroy_entities with
  | none => none
  | some (w1, destroyed) =>
    let sm1 := removeEntitiesFromSystems destroyed w1 sm
    match w1.create_entities with
    | none => none
    | some (w2, created) =>
      let sm2 := addEntitiesToSystems created w2 sm1
      some (sm2, runPhase runf sm2 w2)

/-- The ordering guarantee between two issued ids: if they share an index,
the later one carries a strictly greater generation. -/
def GenIncreasing (a b : EntityId) : Prop :=
  a.index = b.index → a.generation < b.generation

/-- A client-visible allocator operation. -/
inductive AllocOp where
  | alloc
  | dealloc (id : EntityId)

/-- Runs a sequence of allocator operations, collecting the issued ids in
issuance order; any panic aborts the run. -/
def runOps : EntityAllocator → List AllocOp → Except AllocError (EntityAllocator × List EntityId)
  | a, [] => .ok (a, [])
  | a, AllocOp.alloc :: rest =>
    match a.allocate with
    | .error e => .error e
    | .ok (id, a1) =>
      match runOps a1 rest with
      | .error e => .error e
      | .ok (s, issued) => .ok (s, id :: issued)
  | a, AllocOp.dealloc id :: rest =>
    match a.deallocate id with
    | .error e => .error e
    | .ok a1 => runOps a1 rest

/-- Well-formedness of an allocator state, maintained by every non-faulting
operation: every live id's generation agrees with its slot's stored
generation and its index is in range; free indices are in range, distinct,
and not indices of live ids; at most `max_size` slots exist. -/
def AllocWF (a : EntityAllocator) : Prop :=
  (∀ id ∈ a.active_entities,
    id.index < a.entries.length ∧ a.entries.getD id.index 0 = id.generation) ∧
  (∀ i ∈ a.free, i < a.entries.length) ∧
  (∀ i ∈ a.free, ∀ id ∈ a.active_entities, id.index ≠ i) ∧
  a.free.Nodup ∧
  a.entries.length ≤ a.max_size

/-- Every previously issued id is in range and its generation is at most the
current stored generation of its slot. -/
def HistOK (a : EntityAllocator) (issued : List EntityId) : Prop :=
  ∀ id ∈ issued, id.index < a.entries.length ∧ id.generation ≤ a.entries.getD id.index 0

/-- A retired id: not live, in range, and its generation does not exceed the
slot's stored generation.  Any id a client still holds after deallocating it
satisfies this; no subsequent `allocate` can ever return it again. -/
def Dead (a : EntityAllocator) (e : EntityId) : Prop :=
  e ∉ a.active_entities ∧ e.index < a.entries.length ∧
    e.generation ≤ a.entries.getD e.index 0

/-- Well-formedness of a world: the allocator is well-formed and each of the
four registered stores has exactly `max_size` slots (as built by
`EntityComponentSystem::new`). -/
def WorldWF {T C K M : Type u} (w : EntityComponentSystem T C K M) : Prop :=
  AllocWF w.entity_allocator ∧
  w.transform_set.entries.length = w.entity_allocator.max_size ∧
  w.controller_set.entries.length = w.entity_allocator.max_size ∧
  w.camera_set.entries.length = w.entity_allocator.max_size ∧
  w.mesh_set.entries.length = w.entity_allocator.max_size

/-- The state of a destroyed entity `e` after the destruction phase: `e` is
no longer live, its slot still stores `e`'s generation (incremented only on
reuse), and each registered store holds, at `e.index`, a present entry with
empty payload tagged with `e.generation` (written by `clear_component`). -/
def DestroyedAt {T C K M : Type u} (w : EntityComponentSystem T C K M) (e : EntityId) : Prop :=
  e ∉ w.entity_allocator.active_entities ∧
  e.index < w.entity_allocator.entries.length ∧
  w.entity_allocator.entries.getD e.index 0 = e.generation ∧
  w.transform_set.entries.getD e.index none = some ⟨none, e.generation⟩ ∧
  w.controller_set.entries.getD e.index none = some ⟨none, e.generation⟩ ∧
  w.camera_set.entries.getD e.index none = some ⟨none, e.generation⟩ ∧
  w.mesh_set.entries.getD e.index none = some ⟨none, e.generation⟩

/-- `k` consecutive `allocate` calls, keeping only the final state. -/
def allocN : Nat → EntityAllocator → Except AllocError EntityAllocator
  | 0, a => .ok a
  | k + 1, a =>
    match allocN k a with
    | .error e => .error e
    | .ok s =>
      match s.allocate with
      | .error e => .error e
      | .ok (_, s1) => .ok s1

/-- The allocator state after `k` straight-line allocations from
`EntityAllocator.new m` (for `k ≤ m`): `k` slots at generation `0`, an empty
free list, and ids `0..k-1` live at generation `0`. -/
def fullAlloc (m k : Nat) : EntityAllocator :=
  ⟨List.replicate k 0, [], m, (Finset.range k).image (fun j => ⟨j, 0⟩)⟩

instance (a : EntityAllocator) : Decidable (AllocWF a) := by
  unfold AllocWF
  infer_instance

instance {T C K M : Type u} (w : EntityComponentSystem T C K M) :
    Decidable (WorldWF w) := by
  unfold WorldWF
  infer_instance

/-- List.getD at an index below the length of the left part of an append. -/
theorem getD_append_lt {α : Type u} (l l' : List α) (d : α) :
    ∀ i, i < l.length → (l ++ l').getD i d = l.getD i d := by
  induction l with
  | nil => intro i h; exact absurd h (Nat.not_lt_zero i)
  | cons x xs ih =>
    intro i h
    cases i with
    | zero => rfl
    | succ j => exact ih j (Nat.lt_of_succ_lt_succ h)

/-- List.getD of `l ++ [x]` at position `l.length` is `x`. -/
theorem getD_concat_len {α : Type u} (l : List α) (x d : α) :
    (l ++ [x]).getD l.length d = x := by
  induction l with
  | nil => rfl
  | cons y ys ih => exact ih

/-- List.getD after `List.set` at the written index (in bounds). -/
theorem getD_set_self {α : Type u} (l : List α) (v d : α) :
    ∀ i, i < l.length → (l.set i v).getD i d = v := by
  induction l with
  | nil => intro i h; exact absurd h (Nat.not_lt_zero i)
  | cons x xs ih =>
    intro i h
    cases i with
    | zero => rfl
    | succ j => exact ih j (Nat.lt_of_succ_lt_succ h)

/-- List.getD after `List.set` at a different index. -/
theorem getD_set_ne {α : Type u} (l : List α) (v d : α) :
    ∀ i j, i ≠ j → (l.set i v).getD j d = l.getD j d := by
  induction l with
  | nil => intro i j _; rfl
  | cons x xs ih =>
    intro i j hij
    cases i with
    | zero =>
      cases j with
      | zero => exact absurd rfl hij
      | succ j' => rfl
    | succ i' =>
      cases j with
      | zero => rfl
      | succ j' => exact ih i' j' (fun h => hij (congrArg Nat.succ h))

theorem deallocate_ok {a : EntityAllocator} {id : EntityId} {a1 : EntityAllocator}
    (h : a.deallocate id = .ok a1) :
    id ∈ a.active_entities ∧
    a1 = { a with
      active_entities := a.active_entities.erase id,
      free := id.index :: a.free } := by
  simp only [EntityAllocator.deallocate] at h
  split at h
  · next hm => exact ⟨hm, (Except.ok.inj h).symm⟩
  · cases h

theorem allocate_ok_mint {a : EntityAllocator} (hfree : a.free = []) {id : EntityId}
    {a1 : EntityAllocator} (h : a.allocate = .ok (id, a1)) :
    id = ⟨a.entries.length, 0⟩ ∧ a.entries.length < a.max_size ∧
    id ∉ a.active_entities ∧
    a1 = { a with
      entries := a.entries ++ [0],
      active_entities := insert id a.active_entities } := by
  obtain ⟨en, fr, ms, ac⟩ := a
  replace hfree : fr = [] := hfree
  subst hfree
  by_cases hcap : ms ≤ en.length
  · simp only [EntityAllocator.allocate, EntityAllocator.add_new_entry, if_pos hcap] at h
    exact Except.noConfusion h
  · by_cases hmem : (⟨en.length, 0⟩ : EntityId) ∈ ac
    · simp only [EntityAllocator.allocate, EntityAllocator.add_new_entry, if_neg hcap,
        if_pos hmem] at h
      exact Except.noConfusion h
    · simp only [EntityAllocator.allocate, EntityAllocator.add_new_entry, if_neg hcap,
        if_neg hmem, Except.ok.injEq, Prod.mk.injEq] at h
      obtain ⟨hid, ha1⟩ := h
      subst hid
      subst ha1
      exact ⟨rfl, Nat.lt_of_not_le hcap, hmem, rfl⟩

theorem allocate_ok_reuse {a : EntityAllocator} {i : Nat} {rest : List Nat}
    (hfree : a.free = i :: rest) {id : EntityId} {a1 : EntityAllocator}
    (h : a.allocate = .ok (id, a1)) :
    id = ⟨i, a.entries.getD i 0 + 1⟩ ∧ a.entries.getD i 0 + 1 < 2 ^ 64 ∧
    id ∉ a.active_entities ∧
    a1 = { a with
      entries := a.entries.set i (a.entries.getD i 0 + 1), free := rest,
      active_entities := insert id a.active_entities } := by
  obtain ⟨en, fr, ms, ac⟩ := a
  replace hfree : fr = i :: rest := hfree
  subst hfree
  by_cases hov : en.getD i 0 + 1 < 2 ^ 64
  · by_cases hmem : (⟨i, en.getD i 0 + 1⟩ : EntityId) ∈ ac
    · simp only [EntityAllocator.allocate, EntityAllocator.reuse_entry, if_pos hov,
        if_pos hmem] at h
      exact Except.noConfusion h
    · simp only [EntityAllocator.allocate, EntityAllocator.reuse_entry, if_pos hov,
        if_neg hmem, Except.ok.injEq, Prod.mk.injEq] at h
      obtain ⟨hid, ha1⟩ := h
      subst hid
      subst ha1
      exact ⟨rfl, hov, hmem, rfl⟩
  · simp only [EntityAllocator.allocate, EntityAllocator.reuse_entry, if_neg hov] at h
    exact Except.noConfusion h

theorem allocate_capacity_iff (a : EntityAllocator) :
    a.allocate = .error .capacityExceeded ↔
      a.free = [] ∧ a.max_size ≤ a.entries.length := by
  obtain ⟨en, fr, ms, ac⟩ := a
  constructor
  · intro h
    match hfree : fr with
    | [] =>
      subst hfree
      refine ⟨rfl, ?_⟩
      by_contra hcap
      by_cases hmem : (⟨en.length, 0⟩ : EntityId) ∈ ac
      · simp only [EntityAllocator.allocate, EntityAllocator.add_new_entry, if_neg hcap,
          if_pos hmem] at h
        exact AllocError.noConfusion (Except.error.inj h)
      · simp only [EntityAllocator.allocate, EntityAllocator.add_new_entry, if_neg hcap,
          if_neg hmem] at h
        exact Except.noConfusion h
    | i :: rest =>
      subst hfree
      exfalso
      by_cases hov : en.getD i 0 + 1 < 2 ^ 64
      · by_cases hmem : (⟨i, en.getD i 0 + 1⟩ : EntityId) ∈ ac
        · simp only [EntityAllocator.allocate, EntityAllocator.reuse_entry, if_pos hov,
            if_pos hmem] at h
          exact AllocError.noConfusion (Except.error.inj h)
        · simp only [EntityAllocator.allocate, EntityAllocator.reuse_entry, if_pos hov,
            if_neg hmem] at h
          exact Except.noConfusion h
      · simp only [EntityAllocator.allocate, EntityAllocator.reuse_entry, if_neg hov] at h
        exact AllocError.noConfusion (Except.error.inj h)
  · rintro ⟨hfree, hcap⟩
    replace hfree : fr = [] := hfree
    subst hfree
    simp only [EntityAllocator.allocate, EntityAllocator.add_new_entry, if_pos hcap]

/-- C7: `add_entity` and `remove_entity` only append to the pending queues:
the allocator (hence the live set), every registered Component Store, and the
cameras set are untouched; system matching sets live in the `SystemManager`,
which these world operations do not receive at all, so they change only at
the next `tick` boundary. -/
theorem queue_ops_only_append {T C K M : Type u} (w : EntityComponentSystem T C K M)
    (p : String) (e : EntityId) :
    ((w.add_entity p).entity_allocator = w.entity_allocator ∧
     (w.add_entity p).transform_set = w.transform_set ∧
     (w.add_entity p).controller_set = w.controller_set ∧
     (w.add_entity p).camera_set = w.camera_set ∧
     (w.add_entity p).mesh_set = w.mesh_set ∧
     (w.add_entity p).cameras = w.cameras ∧
     (w.add_entity p).entities_to_create = w.entities_to_create ++ [p] ∧
     (w.add_entity p).entities_to_destroy = w.entities_to_destroy) ∧
    ((w.remove_entity e).entity_allocator = w.entity_allocator ∧
     (w.remove_entity e).transform_set = w.transform_set ∧
     (w.remove_entity e).controller_set = w.controller_set ∧
     (w.remove_entity e).camera_set = w.camera_set ∧
     (w.remove_entity e).mesh_set = w.mesh_set ∧
     (w.remove_entity e).cameras = w.cameras ∧
     (w.remove_entity e).entities_to_create = w.entities_to_create ∧
     (w.remove_entity e).entities_to_destroy = w.entities_to_destroy ++ [e]) :=
  ⟨⟨rfl, rfl, rfl, rfl, rfl, rfl, rfl, rfl⟩, ⟨rfl, rfl, rfl, rfl, rfl, rfl, rfl, rfl⟩⟩

/-- C8: `set` called twice on the same id leaves the second value (`get`
returns it), and a single `set` overwrites whatever entry previously occupied
`id.index` unconditionally, writing the value tagged with `id.generation`
with no check of the previous occupant's generation. -/
theorem set_overwrites_unconditionally {α : Type u} (s : ComponentSet α) (id : EntityId)
    (v1 v2 : α) (h : id.index < s.entries.length) :
    ((s.set id v1).set id v2).get id = some v2 ∧
    (s.set id v2).entries.getD id.index none = some ⟨v2, id.generation⟩ := by
  constructor
  · simp only [ComponentSet.set, ComponentSet.get]
    rw [getD_set_self _ _ _ _ (by rw [List.length_set]; exact h)]
    simp
  · exact getD_set_self _ _ _ _ h

/-- Witness for C8 at a concrete store. -/
theorem set_overwrites_unconditionally_witness :
    (0 : Nat) < (ComponentSet.new 1 : ComponentSet Nat).entries.length ∧
    (((ComponentSet.new 1 : ComponentSet Nat).set ⟨0, 0⟩ 1).set ⟨0, 0⟩ 2).get ⟨0, 0⟩ =
      some 2 ∧
    ((ComponentSet.new 1 : ComponentSet Nat).set ⟨0, 0⟩ 2).entries.getD 0 none =
      some ⟨2, 0⟩ :=
  ⟨by decide,
   (set_overwrites_unconditionally (ComponentSet.new 1) ⟨0, 0⟩ 1 2 (by decide)).1,
   (set_overwrites_unconditionally (ComponentSet.new 1) ⟨0, 0⟩ 1 2 (by decide)).2⟩

/-- C3 (amended): after `clear(id)` (the `set(&entityId, None)` performed by
`clear_component` during destruction), a `get` at `id.index` with any
generation other than `id.generation` reports absence, while a `get` with
exactly `id.generation` succeeds, returning the entry's empty payload — so no
component value is retrievable at that index for any generation, but the
entry itself is still present (and `has_component` still reports true) at the
cleared id's generation. -/
theorem clear_semantics {β : Type u} (s : ComponentSet (Option β)) (id : EntityId)
    (g : Nat) (h : id.index < s.entries.length) :
    (s.clear id).get ⟨id.index, g⟩ = if g = id.generation then some none else none := by
  simp only [ComponentSet.clear, ComponentSet.set, ComponentSet.get]
  rw [getD_set_self _ _ _ _ h]
  by_cases hg : id.generation = g
  · simp [hg]
  · have hg2 : ¬g = id.generation := fun hh => hg hh.symm
    simp [hg, hg2]

/-- Witness for C3's amended theorem at a concrete store. -/
theorem clear_semantics_witness :
    (0 : Nat) < (((ComponentSet.new 1 : ComponentSet (Option Nat)).set ⟨0, 0⟩
      (some 5))).entries.length ∧
    (((ComponentSet.new 1 : ComponentSet (Option Nat)).set ⟨0, 0⟩ (some 5)).clear
      ⟨0, 0⟩).get ⟨0, 3⟩ = none :=
  ⟨by decide, by
    have := clear_semantics ((ComponentSet.new 1 : ComponentSet (Option Nat)).set ⟨0, 0⟩
      (some 5)) ⟨0, 0⟩ 3 (by decide)
    simpa using this⟩

/-- Counterexample for C3 as stated: after a value is set and then cleared at
id `⟨0,0⟩`, a `get` at the same index with the cleared generation does *not*
report absence — it returns a present entry (with empty payload), and the
world-level `has_component` test still succeeds for the cleared id. -/
theorem clear_still_present_counterexample :
    (((ComponentSet.new 1 : ComponentSet (Option Nat)).set ⟨0, 0⟩ (some 5)).clear
      ⟨0, 0⟩).get ⟨0, 0⟩ = some none ∧
    (((ComponentSet.new 1 : ComponentSet (Option Nat)).set ⟨0, 0⟩ (some 5)).clear
      ⟨0, 0⟩).get ⟨0, 0⟩ ≠ none ∧
    EntityComponentSystem.has_transform
      (EntityComponentSystem.clear_transform
        (⟨EntityAllocator.new 1,
          (ComponentSet.new 1).set ⟨0, 0⟩ (some 5), ComponentSet.new 1,
          ComponentSet.new 1, ComponentSet.new 1, ∅, [], [],
          []⟩ : EntityComponentSystem Nat Nat Nat Nat) ⟨0, 0⟩) ⟨0, 0⟩ = true := by
  refine ⟨by decide, by decide, by decide⟩

/-- C4: after `deallocate(old_id)` and an `allocate()` that reuses the index
(the freed index is on top of the free list, so the reuse is immediate), the
new id shares the index and carries the incremented generation; once a value
is set under the new id, `get(old_id)` is absent while `get(new_id)` returns
the freshly set value.  In general, `get(id)` returns the stored value iff an
entry exists at `id.index` whose stored generation equals `id.generation`. -/
theorem stale_read_safety {α : Type u} (a : EntityAllocator) (old newId : EntityId)
    (a1 a2 : EntityAllocator)
    (hgen : a.entries.getD old.index 0 = old.generation)
    (hd : a.deallocate old = .ok a1)
    (ha : a1.allocate = .ok (newId, a2)) :
    newId.index = old.index ∧ newId.generation = old.generation + 1 ∧
    (∀ (s : ComponentSet α) (v : α), old.index < s.entries.length →
      (s.set newId v).get old = none ∧ (s.set newId v).get newId = some v) ∧
    (∀ (s : ComponentSet α) (id : EntityId) (x : α),
      s.get id = some x ↔ ∃ e, s.entries.getD id.index none = some e ∧
        e.generation = id.generation ∧ e.value = x) := by
  obtain ⟨hmem, ha1⟩ := deallocate_ok hd
  have hfree : a1.free = old.index :: a.free := by rw [ha1]
  have hent : a1.entries = a.entries := by rw [ha1]
  obtain ⟨hid, _, _, _⟩ := allocate_ok_reuse hfree ha
  have hgen1 : a1.entries.getD old.index 0 = old.generation := by rw [hent, hgen]
  subst hid
  have hidx : (⟨old.index, a1.entries.getD old.index 0 + 1⟩ : EntityId).index =
      old.index := rfl
  have hgen2 : (⟨old.index, a1.entries.getD old.index 0 + 1⟩ : EntityId).generation =
      old.generation + 1 := by
    show a1.entries.getD old.index 0 + 1 = old.generation + 1
    rw [hgen1]
  refine ⟨hidx, hgen2, ?_, ?_⟩
  · intro s v hs
    rw [hgen1]
    constructor
    · simp only [ComponentSet.set, ComponentSet.get]
      rw [getD_set_self _ _ _ _ hs]
      simp [Nat.succ_ne_self]
    · simp only [ComponentSet.set, ComponentSet.get]
      rw [getD_set_self _ _ _ _ hs]
      simp
  · intro s id x
    simp only [ComponentSet.get]
    match hat : s.entries.getD id.index none with
    | none => simp
    | some e =>
      by_cases he : e.generation = id.generation
      · simp only [if_pos he, Option.some.injEq]
        constructor
        · intro hx; exact ⟨e, rfl, he, hx⟩
        · rintro ⟨e', he', _, hx'⟩
          cases he'
          exact hx'
      · simp only [if_neg he]
        constructor
        · intro hx; exact Option.noConfusion hx
        · rintro ⟨e', he', hg', _⟩
          cases he'
          exact absurd hg' he

/-- Witness for C4 at a concrete allocator and store. -/
theorem stale_read_safety_witness :
    ((⟨[0], [], 1, {⟨0, 0⟩}⟩ : EntityAllocator).entries.getD 0 0 = 0) ∧
    ((⟨[0], [], 1, {⟨0, 0⟩}⟩ : EntityAllocator).deallocate ⟨0, 0⟩ =
      .ok ⟨[0], [0], 1, ∅⟩) ∧
    ((⟨[0], [0], 1, ∅⟩ : EntityAllocator).allocate = .ok (⟨0, 1⟩, ⟨[1], [], 1, {⟨0, 1⟩}⟩)) ∧
    (((ComponentSet.new 1 : ComponentSet Nat).set ⟨0, 1⟩ 7).get ⟨0, 0⟩ = none ∧
     ((ComponentSet.new 1 : ComponentSet Nat).set ⟨0, 1⟩ 7).get ⟨0, 1⟩ = some 7) := by
  refine ⟨by decide, by decide, by decide, ?_⟩
  exact (stale_read_safety (α := Nat) ⟨[0], [], 1, {⟨0, 0⟩}⟩ ⟨0, 0⟩ ⟨0, 1⟩
    ⟨[0], [0], 1, ∅⟩ ⟨[1], [], 1, {⟨0, 1⟩}⟩ (by decide) (by decide)
    (by decide)).2.2.1 (ComponentSet.new 1) 7 (by decide)

/-- C10: `deallocate(id)` changes only the live set and the free list — the
slot array (hence the stored generation at `id.index`) and `max_size` are
untouched; a store entry written under `id` still resolves through `get(id)`
(the stores are unaffected; only an explicit clear would remove it); and the
stored generation is incremented only when the index is next reused by an
`allocate`, which returns the old generation plus one at the same index. -/
theorem deallocate_only_retires {α : Type u} (a : EntityAllocator) (id : EntityId)
    (a1 : EntityAllocator) (hd : a.deallocate id = .ok a1) :
    (a1.entries = a.entries ∧ a1.max_size = a.max_size ∧
     a1.free = id.index :: a.free ∧
     a1.active_entities = a.active_entities.erase id) ∧
    (∀ (s : ComponentSet α) (v : α), id.index < s.entries.length →
      (s.set id v).get id = some v) ∧
    (∀ (id2 : EntityId) (a2 : EntityAllocator), a1.allocate = .ok (id2, a2) →
      id2.index = id.index ∧ id2.generation = a.entries.getD id.index 0 + 1) := by
  obtain ⟨hmem, ha1⟩ := deallocate_ok hd
  have hfree : a1.free = id.index :: a.free := by rw [ha1]
  have hent : a1.entries = a.entries := by rw [ha1]
  refine ⟨⟨hent, by rw [ha1], hfree, by rw [ha1]⟩, ?_, ?_⟩
  · intro s v hs
    simp only [ComponentSet.set, ComponentSet.get]
    rw [getD_set_self _ _ _ _ hs]
    simp
  · intro id2 a2 ha
    obtain ⟨hid2, _, _, _⟩ := allocate_ok_reuse hfree ha
    rw [hid2, hent]
    exact ⟨rfl, rfl⟩

/-- Witness for C10 at a concrete allocator. -/
theorem deallocate_only_retires_witness :
    ((⟨[4], [], 2, {⟨0, 4⟩}⟩ : EntityAllocator).deallocate ⟨0, 4⟩ =
      .ok ⟨[4], [0], 2, ∅⟩) ∧
    (⟨[4], [0], 2, ∅⟩ : EntityAllocator).entries = [4] ∧
    (((ComponentSet.new 1 : ComponentSet Nat).set ⟨0, 4⟩ 9).get ⟨0, 4⟩ = some 9) := by
  refine ⟨by decide, ?_, ?_⟩
  · exact ((deallocate_only_retires (α := Nat) ⟨[4], [], 2, {⟨0, 4⟩}⟩ ⟨0, 4⟩
      ⟨[4], [0], 2, ∅⟩ (by decide)).1).1
  · exact (deallocate_only_retires (α := Nat) ⟨[4], [], 2, {⟨0, 4⟩}⟩ ⟨0, 4⟩
      ⟨[4], [0], 2, ∅⟩ (by decide)).2.1 (ComponentSet.new 1) 9 (by decide)

theorem fullAlloc_zero (m : Nat) : fullAlloc m 0 = EntityAllocator.new m := by
  simp [fullAlloc, EntityAllocator.new]

theorem fullAlloc_step (m k : Nat) (hk : k < m) :
    (fullAlloc m k).allocate = .ok (⟨k, 0⟩, fullAlloc m (k + 1)) := by
  have hmem : (⟨k, 0⟩ : EntityId) ∉
      Finset.image (fun j => (⟨j, 0⟩ : EntityId)) (Finset.range k) := by
    simp only [Finset.mem_image, Finset.mem_range]
    rintro ⟨j, hj, hje⟩
    have : j = k := congrArg EntityId.index hje
    omega
  have hcap : ¬ m ≤ k := by omega
  have hent : List.replicate k (0 : Nat) ++ [0] = List.replicate (k + 1) 0 :=
    (List.replicate_succ' k 0).symm
  have hact : insert (⟨k, 0⟩ : EntityId)
      (Finset.image (fun j => (⟨j, 0⟩ : EntityId)) (Finset.range k)) =
      Finset.image (fun j => (⟨j, 0⟩ : EntityId)) (Finset.range (k + 1)) := by
    rw [Finset.range_succ, Finset.image_insert]
  simp only [EntityAllocator.allocate, fullAlloc, EntityAllocator.add_new_entry,
    List.length_replicate, hcap, if_false, hmem, hent, hact]

theorem allocN_new (m : Nat) : ∀ k, k ≤ m →
    allocN k (EntityAllocator.new m) = .ok (fullAlloc m k) := by
  intro k
  induction k with
  | zero => intro _; simp [allocN, fullAlloc_zero]
  | succ j ih =>
    intro hk
    have hj : j ≤ m := Nat.le_of_succ_le hk
    simp only [allocN, ih hj, fullAlloc_step m j (Nat.lt_of_succ_le hk)]

/-- C5: the `allocate` contract — (a) with a non-empty free list, the popped
index is returned with its stored generation incremented; (b) with an empty
free list and spare capacity, a fresh index is minted at generation 0;
(c) the capacity-exceeded failure happens exactly when a new index would have
to be minted at or beyond `max_size`; and (d) from an empty allocator of
capacity `m`, `m` straight allocations all succeed and the next one fails
with capacity-exceeded. -/
theorem allocate_contract :
    (∀ (a : EntityAllocator) (i : Nat) (rest : List Nat) (id : EntityId)
      (a1 : EntityAllocator), a.free = i :: rest → a.allocate = .ok (id, a1) →
      id = ⟨i, a.entries.getD i 0 + 1⟩ ∧
      a1.entries = a.entries.set i (a.entries.getD i 0 + 1) ∧ a1.free = rest) ∧
    (∀ (a : EntityAllocator) (id : EntityId) (a1 : EntityAllocator),
      a.free = [] → a.allocate = .ok (id, a1) →
      id = ⟨a.entries.length, 0⟩ ∧ a.entries.length < a.max_size ∧
      a1.entries = a.entries ++ [0]) ∧
    (∀ a : EntityAllocator, a.allocate = .error .capacityExceeded ↔
      a.free = [] ∧ a.max_size ≤ a.entries.length) ∧
    (∀ m : Nat, allocN m (EntityAllocator.new m) = .ok (fullAlloc m m) ∧
      (fullAlloc m m).allocate = .error .capacityExceeded) := by
  refine ⟨?_, ?_, allocate_capacity_iff, ?_⟩
  · intro a i rest id a1 hfree h
    obtain ⟨hid, _, _, ha1⟩ := allocate_ok_reuse hfree h
    exact ⟨hid, by rw [ha1], by rw [ha1]⟩
  · intro a id a1 hfree h
    obtain ⟨hid, hcap, _, ha1⟩ := allocate_ok_mint hfree h
    exact ⟨hid, hcap, by rw [ha1]⟩
  · intro m
    refine ⟨allocN_new m m (Nat.le_refl m), ?_⟩
    rw [allocate_capacity_iff]
    simp [fullAlloc]

/-- Witness for C5: the boundary at `max_size = 2`, a concrete reuse, and a
concrete mint. -/
theorem allocate_contract_witness :
    ((⟨[4], [0], 2, ∅⟩ : EntityAllocator).allocate = .ok (⟨0, 5⟩, ⟨[5], [], 2, {⟨0, 5⟩}⟩)) ∧
    (⟨0, 5⟩ : EntityId) = ⟨0, (⟨[4], [0], 2, ∅⟩ : EntityAllocator).entries.getD 0 0 + 1⟩ ∧
    allocN 2 (EntityAllocator.new 2) = .ok (fullAlloc 2 2) ∧
    (fullAlloc 2 2).allocate = .error .capacityExceeded := by
  refine ⟨by decide, ?_, ?_, ?_⟩
  · exact (allocate_contract.1 ⟨[4], [0], 2, ∅⟩ 0 [] ⟨0, 5⟩ ⟨[5], [], 2, {⟨0, 5⟩}⟩
      rfl (by decide)).1
  · exact (allocate_contract.2.2.2 2).1
  · exact (allocate_contract.2.2.2 2).2

theorem entityId_eq {x y : EntityId} (h1 : x.index = y.index)
    (h2 : x.generation = y.generation) : x = y := by
  obtain ⟨xi, xg⟩ := x
  obtain ⟨yi, yg⟩ := y
  simp only at h1 h2
  subst h1
  subst h2
  rfl

theorem allocWF_unique {a : EntityAllocator} (hwf : AllocWF a) :
    ∀ x ∈ a.active_entities, ∀ y ∈ a.active_entities, x.index = y.index → x = y := by
  intro x hx y hy hxy
  obtain ⟨hlive, _, _, _, _⟩ := hwf
  have hgx := (hlive x hx).2
  have hgy := (hlive y hy).2
  exact entityId_eq hxy (by rw [← hgx, ← hgy, hxy])

theorem new_allocWF (m : Nat) : AllocWF (EntityAllocator.new m) := by
  refine ⟨?_, ?_, ?_, ?_, ?_⟩ <;> simp [EntityAllocator.new]

theorem allocate_inv {a : EntityAllocator} {prev : List EntityId} {id : EntityId}
    {a1 : EntityAllocator} (hwf : AllocWF a) (hh : HistOK a prev)
    (h : a.allocate = .ok (id, a1)) :
    AllocWF a1 ∧ HistOK a1 (prev ++ [id]) ∧ ∀ p ∈ prev, GenIncreasing p id := by
  obtain ⟨hlive, hfl, hfa, hnd, hlen⟩ := hwf
  match hfree : a.free with
  | [] =>
    obtain ⟨hid, hcap, hmem, ha1⟩ := allocate_ok_mint hfree h
    subst hid
    subst ha1
    have hlen1 : (a.entries ++ [0]).length = a.entries.length + 1 := by
      simp
    refine ⟨⟨?_, ?_, ?_, ?_, ?_⟩, ?_, ?_⟩
    · intro x hx
      rcases Finset.mem_insert.mp hx with hx | hx
      · subst hx
        refine ⟨?_, getD_concat_len a.entries 0 0⟩
        show a.entries.length < (a.entries ++ [0]).length
        rw [hlen1]
        omega
      · obtain ⟨hxi, hxg⟩ := hlive x hx
        exact ⟨by rw [hlen1]; omega, by rw [getD_append_lt _ _ _ _ hxi]; exact hxg⟩
    · intro i hi
      rw [hfree] at hi
      exact absurd hi (List.not_mem_nil i)
    · intro i hi
      rw [hfree] at hi
      exact absurd hi (List.not_mem_nil i)
    · rw [hfree]
      exact List.nodup_nil
    · show (a.entries ++ [0]).length ≤ a.max_size
      rw [hlen1]
      omega
    · intro p hp
      rcases List.mem_append.mp hp with hp | hp
      · obtain ⟨hpi, hpg⟩ := hh p hp
        exact ⟨by rw [hlen1]; omega, by rw [getD_append_lt _ _ _ _ hpi]; exact hpg⟩
      · rw [List.mem_singleton.mp hp]
        refine ⟨?_, ?_⟩
        · show a.entries.length < (a.entries ++ [0]).length
          rw [hlen1]
          omega
        · show (0 : Nat) ≤ (a.entries ++ [0]).getD a.entries.length 0
          rw [getD_concat_len]
    · intro p hp hpi
      exfalso
      have := (hh p hp).1
      simp only at hpi
      omega
  | i :: rest =>
    obtain ⟨hid, hov, hmem, ha1⟩ := allocate_ok_reuse hfree h
    subst hid
    subst ha1
    have hifree : i ∈ a.free := by rw [hfree]; exact List.mem_cons_self i rest
    have hi : i < a.entries.length := hfl i hifree
    have hlen1 : (a.entries.set i (a.entries.getD i 0 + 1)).length = a.entries.length := by
      simp
    have hndc := hfree ▸ hnd
    have hint : i ∉ rest := (List.nodup_cons.mp hndc).1
    refine ⟨⟨?_, ?_, ?_, ?_, ?_⟩, ?_, ?_⟩
    · intro x hx
      rcases Finset.mem_insert.mp hx with hx | hx
      · subst hx
        exact ⟨by rw [hlen1]; exact hi, getD_set_self _ _ _ _ hi⟩
      · obtain ⟨hxi, hxg⟩ := hlive x hx
        have hxne : x.index ≠ i := hfa i hifree x hx
        exact ⟨by rw [hlen1]; exact hxi,
          by rw [getD_set_ne _ _ _ _ _ (fun hh2 => hxne hh2.symm)]; exact hxg⟩
    · intro j hj
      rw [hlen1]
      exact hfl j (by rw [hfree]; exact List.mem_cons_of_mem i hj)
    · intro j hj x hx
      rcases Finset.mem_insert.mp hx with hx | hx
      · subst hx
        simp only
        intro hji
        exact hint (hji ▸ hj)
      · exact hfa j (by rw [hfree]; exact List.mem_cons_of_mem i hj) x hx
    · exact (List.nodup_cons.mp hndc).2
    · rw [hlen1]; exact hlen
    · intro p hp
      rcases List.mem_append.mp hp with hp | hp
      · obtain ⟨hpi, hpg⟩ := hh p hp
        refine ⟨by rw [hlen1]; exact hpi, ?_⟩
        by_cases hpe : p.index = i
        · rw [hpe, getD_set_self _ _ _ _ hi]
          rw [hpe] at hpg
          omega
        · rw [getD_set_ne _ _ _ _ _ (fun hh2 => hpe hh2.symm)]
          exact hpg
      · rw [List.mem_singleton.mp hp]
        exact ⟨by rw [hlen1]; exact hi, by rw [getD_set_self _ _ _ _ hi]⟩
    · intro p hp hpi
      obtain ⟨_, hpg⟩ := hh p hp
      replace hpi : p.index = i := hpi
      show p.generation < a.entries.getD i 0 + 1
      rw [hpi] at hpg
      omega

theorem deallocate_inv {a : EntityAllocator} {prev : List EntityId} {d : EntityId}
    {a1 : EntityAllocator} (hwf : AllocWF a) (hh : HistOK a prev)
    (h : a.deallocate d = .ok a1) :
    AllocWF a1 ∧ HistOK a1 prev := by
  obtain ⟨hmem, ha1⟩ := deallocate_ok h
  subst ha1
  obtain ⟨hlive, hfl, hfa, hnd, hlen⟩ := hwf
  have hdi : d.index < a.entries.length := (hlive d hmem).1
  refine ⟨⟨?_, ?_, ?_, ?_, hlen⟩, hh⟩
  · intro x hx
    exact hlive x (Finset.mem_of_mem_erase hx)
  · intro j hj
    rcases List.mem_cons.mp hj with hj | hj
    · rw [hj]; exact hdi
    · exact hfl j hj
  · intro j hj x hx
    have hxa : x ∈ a.active_entities := Finset.mem_of_mem_erase hx
    rcases List.mem_cons.mp hj with hj | hj
    · subst hj
      intro hxd
      have : x = d := allocWF_unique ⟨hlive, hfl, hfa, hnd, hlen⟩ x hxa d hmem hxd
      rw [this] at hx
      exact absurd hx (Finset.not_mem_erase d a.active_entities)
    · exact hfa j hj x hxa
  · refine List.nodup_cons.mpr ⟨?_, hnd⟩
    intro hdin
    exact hfa d.index hdin d hmem rfl

theorem runOps_inv (ops : List AllocOp) :
    ∀ (a : EntityAllocator) (prev : List EntityId) (s : EntityAllocator)
      (iss : List EntityId), AllocWF a → HistOK a prev →
      runOps a ops = .ok (s, iss) →
      AllocWF s ∧ HistOK s (prev ++ iss) ∧
        (List.Pairwise GenIncreasing prev →
          List.Pairwise GenIncreasing (prev ++ iss)) := by
  induction ops with
  | nil =>
    intro a prev s iss hwf hh h
    simp only [runOps, Except.ok.injEq, Prod.mk.injEq] at h
    obtain ⟨hs, hiss⟩ := h
    subst hs
    subst hiss
    rw [List.append_nil]
    exact ⟨hwf, hh, fun hp => hp⟩
  | cons op rest ih =>
    intro a prev s iss hwf hh h
    cases op with
    | alloc =>
      simp only [runOps] at h
      split at h
      · exact Except.noConfusion h
      · rename_i id a1 hall
        split at h
        · exact Except.noConfusion h
        · rename_i s' iss' hrun
          simp only [Except.ok.injEq, Prod.mk.injEq] at h
          obtain ⟨hs, hiss⟩ := h
          subst hs
          subst hiss
          obtain ⟨hwf1, hh1, hcross⟩ := allocate_inv hwf hh hall
          obtain ⟨hwf2, hh2, hpw⟩ := ih a1 (prev ++ [id]) s' iss' hwf1 hh1 hrun
          have happ : (prev ++ [id]) ++ iss' = prev ++ (id :: iss') := by simp
          refine ⟨hwf2, by rw [← happ]; exact hh2, ?_⟩
          intro hpprev
          have hp1 : List.Pairwise GenIncreasing (prev ++ [id]) := by
            rw [List.pairwise_append]
            refine ⟨hpprev, List.pairwise_singleton _ _, ?_⟩
            intro p hp q hq
            rw [List.mem_singleton.mp hq]
            exact hcross p hp
          rw [← happ]
          exact hpw hp1
    | dealloc d =>
      simp only [runOps] at h
      split at h
      · exact Except.noConfusion h
      · rename_i a1 hd
        obtain ⟨hwf1, hh1⟩ := deallocate_inv hwf hh hd
        exact ih a1 prev s iss hwf1 hh1 h

theorem runOps_prefix (l1 : List AllocOp) :
    ∀ (l2 : List AllocOp) (a s : EntityAllocator) (iss : List EntityId),
      runOps a (l1 ++ l2) = .ok (s, iss) →
      ∃ s1 iss1, runOps a l1 = .ok (s1, iss1) := by
  induction l1 with
  | nil =>
    intro l2 a s iss _
    exact ⟨a, [], rfl⟩
  | cons op rest ih =>
    intro l2 a s iss h
    cases op with
    | alloc =>
      rw [List.cons_append] at h
      simp only [runOps] at h ⊢
      split at h
      · exact Except.noConfusion h
      · rename_i id a1 hall
        split at h
        · exact Except.noConfusion h
        · rename_i s2 iss2 hrun
          obtain ⟨s1, iss1, hpre⟩ := ih l2 a1 s2 iss2 hrun
          exact ⟨s1, id :: iss1, by rw [hpre]⟩
    | dealloc d =>
      rw [List.cons_append] at h
      simp only [runOps] at h ⊢
      split at h
      · exact Except.noConfusion h
      · rename_i a1 hd
        exact ih l2 a1 s iss h

/-- C6: for every non-faulting sequence of allocate/deallocate calls from a
fresh allocator, at every moment (every prefix of the run) no two
simultaneously-live ids share an index, and the ids ever issued at a common
index carry strictly increasing generations (each reuse strictly exceeds the
previous occupancy). -/
theorem allocator_unique_and_monotone (m : Nat) (ops : List AllocOp)
    (s : EntityAllocator) (issued : List EntityId)
    (h : runOps (EntityAllocator.new m) ops = .ok (s, issued)) :
    (∀ l1 l2, ops = l1 ++ l2 → ∃ s1 iss1,
      runOps (EntityAllocator.new m) l1 = .ok (s1, iss1) ∧
      (∀ x ∈ s1.active_entities, ∀ y ∈ s1.active_entities,
        x.index = y.index → x = y) ∧
      List.Pairwise GenIncreasing iss1) ∧
    (∀ x ∈ s.active_entities, ∀ y ∈ s.active_entities,
      x.index = y.index → x = y) ∧
    List.Pairwise GenIncreasing issued := by
  have hmain : ∀ (l : List AllocOp) (s0 : EntityAllocator) (iss0 : List EntityId),
      runOps (EntityAllocator.new m) l = .ok (s0, iss0) →
      (∀ x ∈ s0.active_entities, ∀ y ∈ s0.active_entities,
        x.index = y.index → x = y) ∧
      List.Pairwise GenIncreasing iss0 := by
    intro l s0 iss0 hl
    obtain ⟨hwf, _, hpw⟩ := runOps_inv l (EntityAllocator.new m) [] s0 iss0
      (new_allocWF m) (fun x hx => absurd hx (List.not_mem_nil x)) hl
    exact ⟨allocWF_unique hwf, by simpa using hpw List.Pairwise.nil⟩
  refine ⟨?_, (hmain ops s issued h).1, (hmain ops s issued h).2⟩
  intro l1 l2 hsplit
  obtain ⟨s1, iss1, h1⟩ := runOps_prefix l1 l2 _ s issued (by rw [← hsplit]; exact h)
  exact ⟨s1, iss1, h1, (hmain l1 s1 iss1 h1).1, (hmain l1 s1 iss1 h1).2⟩

/-- Witness for C6 on a concrete run: allocate, destroy the id, allocate
again (reusing index 0 at generation 1). -/
theorem allocator_unique_and_monotone_witness :
    (runOps (EntityAllocator.new 2) [AllocOp.alloc, AllocOp.dealloc ⟨0, 0⟩, AllocOp.alloc] =
      .ok (⟨[1], [], 2, {⟨0, 1⟩}⟩, [⟨0, 0⟩, ⟨0, 1⟩])) ∧
    (∀ x ∈ (⟨[1], [], 2, {⟨0, 1⟩}⟩ : EntityAllocator).active_entities,
      ∀ y ∈ (⟨[1], [], 2, {⟨0, 1⟩}⟩ : EntityAllocator).active_entities,
      x.index = y.index → x = y) ∧
    List.Pairwise GenIncreasing [⟨0, 0⟩, ⟨0, 1⟩] := by
  refine ⟨by decide, ?_, ?_⟩
  · exact (allocator_unique_and_monotone 2
      [AllocOp.alloc, AllocOp.dealloc ⟨0, 0⟩, AllocOp.alloc]
      ⟨[1], [], 2, {⟨0, 1⟩}⟩ [⟨0, 0⟩, ⟨0, 1⟩] (by decide)).2.1
  · exact (allocator_unique_and_monotone 2
      [AllocOp.alloc, AllocOp.dealloc ⟨0, 0⟩, AllocOp.alloc]
      ⟨[1], [], 2, {⟨0, 1⟩}⟩ [⟨0, 0⟩, ⟨0, 1⟩] (by decide)).2.2

theorem destroy_entity_ok {T C K M : Type u} {w : EntityComponentSystem T C K M}
    {e : EntityId} {w1 : EntityComponentSystem T C K M}
    (h : w.destroy_entity e = some w1) :
    e ∈ w.entity_allocator.active_entities ∧
    w1 = { w with
      entity_allocator := { w.entity_allocator with
        active_entities := w.entity_allocator.active_entities.erase e,
        free := e.index :: w.entity_allocator.free },
      transform_set := w.transform_set.clear e,
      camera_set := w.camera_set.clear e,
      controller_set := w.controller_set.clear e,
      mesh_set := w.mesh_set.clear e } := by
  simp only [EntityComponentSystem.destroy_entity] at h
  split at h
  · exact Option.noConfusion h
  · rename_i alloc1 hd
    obtain ⟨hmem, ha1⟩ := deallocate_ok hd
    subst ha1
    refine ⟨hmem, ?_⟩
    rw [← Option.some.inj h]
    rfl

theorem destroy_entity_spec_eq {T C K M : Type u} (w : EntityComponentSystem T C K M)
    (e : EntityId) : w.destroy_entity e = w.destroy_entity_spec e := rfl

theorem destroy_go_ids {T C K M : Type u} :
    ∀ (l : List EntityId) (w w1 : EntityComponentSystem T C K M) (ids : List EntityId),
      EntityComponentSystem.destroy_go w l = some (w1, ids) → ids = l := by
  intro l
  induction l with
  | nil =>
    intro w w1 ids h
    simp only [EntityComponentSystem.destroy_go, Option.some.injEq, Prod.mk.injEq] at h
    exact h.2.symm
  | cons e rest ih =>
    intro w w1 ids h
    simp only [EntityComponentSystem.destroy_go] at h
    split at h
    · exact Option.noConfusion h
    · rename_i w2 _
      split at h
      · exact Option.noConfusion h
      · rename_i w3 ids3 hrest
        simp only [Option.some.injEq, Prod.mk.injEq] at h
        rw [← h.2]
        rw [ih w2 w3 ids3 hrest]

theorem destroy_go_spec_eq {T C K M : Type u} :
    ∀ (l : List EntityId) (w : EntityComponentSystem T C K M),
      EntityComponentSystem.destroy_go w l = EntityComponentSystem.destroy_go_spec w l := by
  intro l
  induction l with
  | nil => intro w; rfl
  | cons e rest ih =>
    intro w
    simp only [EntityComponentSystem.destroy_go, EntityComponentSystem.destroy_go_spec,
      ← destroy_entity_spec_eq]
    cases w.destroy_entity e with
    | none => rfl
    | some w2 => simp only [ih]

/-- C2: `destroy_entities` drains the pending-destruction queue in FIFO
order, returning exactly the queued ids in order, and its effect on the world
is the spec's per-id composition: clear the id from every registered
Component Store, then deallocate it (in the source the deallocation comes
first, but the two orders commute to the same state, as the equality with the
clear-first `destroy_go_spec` shows). -/
theorem destroy_entities_fifo_clear_dealloc {T C K M : Type u}
    (w w1 : EntityComponentSystem T C K M) (ids : List EntityId)
    (h : w.destroy_entities = some (w1, ids)) :
    ids = w.entities_to_destroy ∧
    EntityComponentSystem.destroy_go_spec { w with entities_to_destroy := [] }
      w.entities_to_destroy = some (w1, ids) := by
  have hgo : EntityComponentSystem.destroy_go { w with entities_to_destroy := [] }
      w.entities_to_destroy = some (w1, ids) := h
  exact ⟨destroy_go_ids _ _ _ _ hgo, by rw [← destroy_go_spec_eq]; exact hgo⟩

/-- Witness for C2 on a concrete world with one queued destruction. -/
theorem destroy_entities_fifo_clear_dealloc_witness :
    ([(⟨0, 0⟩ : EntityId)] =
      (⟨⟨[0], [], 1, {⟨0, 0⟩}⟩, (ComponentSet.new 1).set ⟨0, 0⟩ (some 3),
        ComponentSet.new 1, ComponentSet.new 1, ComponentSet.new 1, ∅, [], [⟨0, 0⟩],
        []⟩ : EntityComponentSystem Nat Nat Nat Nat).entities_to_destroy) ∧
    EntityComponentSystem.destroy_go_spec
      ({(⟨⟨[0], [], 1, {⟨0, 0⟩}⟩, (ComponentSet.new 1).set ⟨0, 0⟩ (some 3),
        ComponentSet.new 1, ComponentSet.new 1, ComponentSet.new 1, ∅, [], [⟨0, 0⟩],
        []⟩ : EntityComponentSystem Nat Nat Nat Nat) with entities_to_destroy := []})
      (⟨⟨[0], [], 1, {⟨0, 0⟩}⟩, (ComponentSet.new 1).set ⟨0, 0⟩ (some 3),
        ComponentSet.new 1, ComponentSet.new 1, ComponentSet.new 1, ∅, [], [⟨0, 0⟩],
        []⟩ : EntityComponentSystem Nat Nat Nat Nat).entities_to_destroy =
      some (⟨⟨[0], [0], 1, ∅⟩, ⟨[some ⟨none, 0⟩]⟩, ⟨[some ⟨none, 0⟩]⟩,
        ⟨[some ⟨none, 0⟩]⟩, ⟨[some ⟨none, 0⟩]⟩, ∅, [], [], []⟩, [⟨0, 0⟩]) :=
  destroy_entities_fifo_clear_dealloc _ _ _ (by decide)

theorem write_transform_fields {T C K M : Type u} (w : EntityComponentSystem T C K M)
    (en : EntityId) (o : Option T) :
    (EntityComponentSystem.write_transform w en o).entity_allocator = w.entity_allocator ∧
    (EntityComponentSystem.write_transform w en o).camera_set = w.camera_set ∧
    (EntityComponentSystem.write_transform w en o).cameras = w.cameras := by
  cases o <;> exact ⟨rfl, rfl, rfl⟩

theorem write_controller_fields {T C K M : Type u} (w : EntityComponentSystem T C K M)
    (en : EntityId) (o : Option C) :
    (EntityComponentSystem.write_controller w en o).entity_allocator = w.entity_allocator ∧
    (EntityComponentSystem.write_controller w en o).camera_set = w.camera_set ∧
    (EntityComponentSystem.write_controller w en o).cameras = w.cameras := by
  cases o <;> exact ⟨rfl, rfl, rfl⟩

theorem write_mesh_fields {T C K M : Type u} (w : EntityComponentSystem T C K M)
    (en : EntityId) (o : Option M) :
    (EntityComponentSystem.write_mesh w en o).entity_allocator = w.entity_allocator ∧
    (EntityComponentSystem.write_mesh w en o).camera_set = w.camera_set ∧
    (EntityComponentSystem.write_mesh w en o).cameras = w.cameras := by
  cases o <;> exact ⟨rfl, rfl, rfl⟩

theorem write_camera_fields {T C K M : Type u} (w : EntityComponentSystem T C K M)
    (en : EntityId) (o : Option K) :
    (EntityComponentSystem.write_camera w en o).entity_allocator = w.entity_allocator ∧
    (EntityComponentSystem.write_camera w en o).cameras = w.cameras := by
  cases o <;> exact ⟨rfl, rfl⟩

theorem write_camera_set_some {T C K M : Type u} (w : EntityComponentSystem T C K M)
    (en : EntityId) (c : K) :
    (EntityComponentSystem.write_camera w en (some c)).camera_set =
      w.camera_set.set en (some c) := rfl

theorem allocate_index_lt {a : EntityAllocator} {id : EntityId} {a1 : EntityAllocator}
    (hwf : AllocWF a) (h : a.allocate = .ok (id, a1)) : id.index < a.max_size := by
  obtain ⟨_, hfl, _, _, hlen⟩ := hwf
  match hfree : a.free with
  | [] =>
    obtain ⟨hid, hcap, _, _⟩ := allocate_ok_mint hfree h
    rw [hid]
    exact hcap
  | i :: rest =>
    obtain ⟨hid, _, _, _⟩ := allocate_ok_reuse hfree h
    rw [hid]
    show i < a.max_size
    exact Nat.lt_of_lt_of_le (hfl i (by rw [hfree]; exact List.mem_cons_self i rest)) hlen

theorem destroy_entity_inv {T C K M : Type u} {w w1 : EntityComponentSystem T C K M}
    {e : EntityId} (hwf : WorldWF w) (h : w.destroy_entity e = some w1) :
    WorldWF w1 ∧ e ∈ w.entity_allocator.active_entities ∧
    w1.entity_allocator.entries = w.entity_allocator.entries ∧
    w1.entity_allocator.max_size = w.entity_allocator.max_size ∧
    (∀ x, x ∈ w1.entity_allocator.active_entities →
      x ∈ w.entity_allocator.active_entities) ∧
    (∀ x, DestroyedAt w x → DestroyedAt w1 x) ∧
    DestroyedAt w1 e ∧
    w1.cameras = w.cameras ∧
    w1.entities_to_create = w.entities_to_create ∧
    w1.resources = w.resources := by
  obtain ⟨hmem, hw1⟩ := destroy_entity_ok h
  subst hw1
  obtain ⟨hawf, hlt, hlc, hlk, hlm⟩ := hwf
  have hd : w.entity_allocator.deallocate e = .ok { w.entity_allocator with
      active_entities := w.entity_allocator.active_entities.erase e,
      free := e.index :: w.entity_allocator.free } := by
    simp [EntityAllocator.deallocate, hmem]
  obtain ⟨hawf1, _⟩ := deallocate_inv hawf
    (show HistOK w.entity_allocator [] from fun x hx => absurd hx (List.not_mem_nil x)) hd
  have hei : e.index < w.entity_allocator.entries.length := (hawf.1 e hmem).1
  have heg : w.entity_allocator.entries.getD e.index 0 = e.generation :=
    (hawf.1 e hmem).2
  have hmax : w.entity_allocator.entries.length ≤ w.entity_allocator.max_size :=
    hawf.2.2.2.2
  have hne_of_destroyed : ∀ x, DestroyedAt w x → e.index ≠ x.index := by
    intro x hx hex
    obtain ⟨hxa, _, hxg, _⟩ := hx
    have : e = x := entityId_eq hex (by rw [← heg, ← hxg, hex])
    rw [this] at hmem
    exact hxa hmem
  refine ⟨⟨hawf1, ?_, ?_, ?_, ?_⟩, hmem, rfl, rfl, ?_, ?_, ?_, rfl, rfl, rfl⟩
  · show (w.transform_set.clear e).entries.length = w.entity_allocator.max_size
    rw [ComponentSet.clear, ComponentSet.length_set]
    exact hlt
  · show (w.controller_set.clear e).entries.length = w.entity_allocator.max_size
    rw [ComponentSet.clear, ComponentSet.length_set]
    exact hlc
  · show (w.camera_set.clear e).entries.length = w.entity_allocator.max_size
    rw [ComponentSet.clear, ComponentSet.length_set]
    exact hlk
  · show (w.mesh_set.clear e).entries.length = w.entity_allocator.max_size
    rw [ComponentSet.clear, ComponentSet.length_set]
    exact hlm
  · intro x hx
    exact Finset.mem_of_mem_erase hx
  · intro x hx
    have hne := hne_of_destroyed x hx
    obtain ⟨hxa, hxi, hxg, hxt, hxc, hxk, hxm⟩ := hx
    refine ⟨?_, hxi, hxg, ?_, ?_, ?_, ?_⟩
    · intro hxe
      exact hxa (Finset.mem_of_mem_erase hxe)
    · show (w.transform_set.clear e).entries.getD x.index none = some ⟨none, x.generation⟩
      rw [ComponentSet.clear, ComponentSet.set, getD_set_ne _ _ _ _ _ hne]
      exact hxt
    · show (w.controller_set.clear e).entries.getD x.index none = some ⟨none, x.generation⟩
      rw [ComponentSet.clear, ComponentSet.set, getD_set_ne _ _ _ _ _ hne]
      exact hxc
    · show (w.camera_set.clear e).entries.getD x.index none = some ⟨none, x.generation⟩
      rw [ComponentSet.clear, ComponentSet.set, getD_set_ne _ _ _ _ _ hne]
      exact hxk
    · show (w.mesh_set.clear e).entries.getD x.index none = some ⟨none, x.generation⟩
      rw [ComponentSet.clear, ComponentSet.set, getD_set_ne _ _ _ _ _ hne]
      exact hxm
  · refine ⟨Finset.not_mem_erase e _, hei, heg, ?_, ?_, ?_, ?_⟩
    · show (w.transform_set.clear e).entries.getD e.index none = some ⟨none, e.generation⟩
      rw [ComponentSet.clear, ComponentSet.set]
      exact getD_set_self _ _ _ _ (by rw [hlt]; omega)
    · show (w.controller_set.clear e).entries.getD e.index none = some ⟨none, e.generation⟩
      rw [ComponentSet.clear, ComponentSet.set]
      exact getD_set_self _ _ _ _ (by rw [hlc]; omega)
    · show (w.camera_set.clear e).entries.getD e.index none = some ⟨none, e.generation⟩
      rw [ComponentSet.clear, ComponentSet.set]
      exact getD_set_self _ _ _ _ (by rw [hlk]; omega)
    · show (w.mesh_set.clear e).entries.getD e.index none = some ⟨none, e.generation⟩
      rw [ComponentSet.clear, ComponentSet.set]
      exact getD_set_self _ _ _ _ (by rw [hlm]; omega)

theorem destroy_go_inv {T C K M : Type u} :
    ∀ (l : List EntityId) (w w1 : EntityComponentSystem T C K M) (ids : List EntityId),
      WorldWF w → EntityComponentSystem.destroy_go w l = some (w1, ids) →
      WorldWF w1 ∧
      (∀ x, DestroyedAt w x → DestroyedAt w1 x) ∧
      (∀ e ∈ l, DestroyedAt w1 e) ∧
      w1.cameras = w.cameras ∧
      w1.entities_to_create = w.entities_to_create ∧
      w1.resources = w.resources := by
  intro l
  induction l with
  | nil =>
    intro w w1 ids hwf h
    simp only [EntityComponentSystem.destroy_go, Option.some.injEq, Prod.mk.injEq] at h
    rw [← h.1]
    exact ⟨hwf, fun x hx => hx, fun e he => absurd he (List.not_mem_nil e),
      rfl, rfl, rfl⟩
  | cons e rest ih =>
    intro w w1 ids hwf h
    simp only [EntityComponentSystem.destroy_go] at h
    split at h
    · exact Option.noConfusion h
    · rename_i w2 hstep
      split at h
      · exact Option.noConfusion h
      · rename_i w3 ids3 hrest
        simp only [Option.some.injEq, Prod.mk.injEq] at h
        obtain ⟨hw, _⟩ := h
        subst hw
        obtain ⟨hwf2, _, _, _, _, hpres2, hdest2, hcam2, hcre2, hres2⟩ :=
          destroy_entity_inv hwf hstep
        obtain ⟨hwf3, hpres3, hdest3, hcam3, hcre3, hres3⟩ :=
          ih w2 _ ids3 hwf2 hrest
        refine ⟨hwf3, ?_, ?_, by rw [hcam3, hcam2], by rw [hcre3, hcre2],
          by rw [hres3, hres2]⟩
        · intro x hx
          exact hpres3 x (hpres2 x hx)
        · intro e2 he2
          rcases List.mem_cons.mp he2 with he2 | he2
          · subst he2
            exact hpres3 e2 hdest2
          · exact hdest3 e2 he2

theorem destroy_go_cameras {T C K M : Type u} :
    ∀ (l : List EntityId) (w w1 : EntityComponentSystem T C K M) (ids : List EntityId),
      EntityComponentSystem.destroy_go w l = some (w1, ids) → w1.cameras = w.cameras := by
  intro l
  induction l with
  | nil =>
    intro w w1 ids h
    simp only [EntityComponentSystem.destroy_go, Option.some.injEq, Prod.mk.injEq] at h
    rw [← h.1]
  | cons e rest ih =>
    intro w w1 ids h
    simp only [EntityComponentSystem.destroy_go] at h
    split at h
    · exact Option.noConfusion h
    · rename_i w2 hstep
      split at h
      · exact Option.noConfusion h
      · rename_i w3 ids3 hrest
        simp only [Option.some.injEq, Prod.mk.injEq] at h
        obtain ⟨hw, _⟩ := h
        subst hw
        rw [ih w2 _ ids3 hrest, (destroy_entity_ok hstep).2]

theorem create_entity_ok {T C K M : Type u} {w w1 : EntityComponentSystem T C K M}
    {p : String} {id : EntityId} (h : w.create_entity p = some (w1, id)) :
    ∃ pre a1, findPrefab w.resources p = some pre ∧
      w.entity_allocator.allocate = .ok (id, a1) ∧
      w1.entity_allocator = a1 := by
  simp only [EntityComponentSystem.create_entity] at h
  split at h
  · exact Option.noConfusion h
  · rename_i pre hpre
    split at h
    · exact Option.noConfusion h
    · rename_i entity alloc1 hall
      simp only [Option.some.injEq, Prod.mk.injEq] at h
      obtain ⟨hw, hid⟩ := h
      subst hid
      refine ⟨pre, alloc1, hpre, hall, ?_⟩
      rw [← hw]
      split
      · show (EntityComponentSystem.write_mesh _ _ _).entity_allocator = alloc1
        rw [(write_mesh_fields _ _ _).1, (write_controller_fields _ _ _).1,
          (write_camera_fields _ _ _).1, (write_transform_fields _ _ _).1]
      · show (EntityComponentSystem.write_mesh _ _ _).entity_allocator = alloc1
        rw [(write_mesh_fields _ _ _).1, (write_controller_fields _ _ _).1,
          (write_camera_fields _ _ _).1, (write_transform_fields _ _ _).1]

/-- C9: an entity created from a prefab that declares a Camera component is
inserted into the world's cameras set at creation, and destruction never
touches that set — after the entity is destroyed its (now stale) id is still
a member of `cameras()`, the set the render system iterates. -/
theorem camera_entities_never_removed {T C K M : Type u} :
    (∀ (w w1 : EntityComponentSystem T C K M) (p : String) (pre : Prefab T C K M)
      (id : EntityId), WorldWF w → findPrefab w.resources p = some pre →
      pre.camera.isSome → w.create_entity p = some (w1, id) → id ∈ w1.cameras) ∧
    (∀ (w w1 : EntityComponentSystem T C K M) (e : EntityId),
      w.destroy_entity e = some w1 → w1.cameras = w.cameras) ∧
    (∀ (w w1 : EntityComponentSystem T C K M) (ids : List EntityId),
      w.destroy_entities = some (w1, ids) → w1.cameras = w.cameras) := by
  refine ⟨?_, ?_, ?_⟩
  · intro w w1 p pre id hwf hpre hcam h
    obtain ⟨c, hc⟩ := Option.isSome_iff_exists.mp hcam
    simp only [EntityComponentSystem.create_entity, hpre] at h
    split at h
    · exact Option.noConfusion h
    · rename_i entity alloc1 hall
      simp only [Option.some.injEq, Prod.mk.injEq] at h
      obtain ⟨hw, hid⟩ := h
      subst hid
      have hidx : entity.index < w.camera_set.entries.length := by
        rw [hwf.2.2.2.1]
        exact allocate_index_lt hwf.1 hall
      have hk5 : (EntityComponentSystem.write_mesh (EntityComponentSystem.write_controller
          (EntityComponentSystem.write_camera (EntityComponentSystem.write_transform
            { w with entity_allocator := alloc1 } entity pre.transform) entity pre.camera)
          entity pre.controller) entity pre.mesh).camera_set =
          w.camera_set.set entity (some c) := by
        rw [(write_mesh_fields _ _ _).2.1, (write_controller_fields _ _ _).2.1, hc,
          write_camera_set_some, (write_transform_fields _ _ _).2.1]
      have hhc : (EntityComponentSystem.write_mesh (EntityComponentSystem.write_controller
          (EntityComponentSystem.write_camera (EntityComponentSystem.write_transform
            { w with entity_allocator := alloc1 } entity pre.transform) entity pre.camera)
          entity pre.controller) entity pre.mesh).has_camera entity = true := by
        simp only [EntityComponentSystem.has_camera, hk5, ComponentSet.set, ComponentSet.get]
        rw [getD_set_self _ _ _ _ hidx]
        simp
      rw [← hw, if_pos hhc]
      exact Finset.mem_insert_self entity _
  · intro w w1 e h
    rw [(destroy_entity_ok h).2]
  · intro w w1 ids h
    exact destroy_go_cameras w.entities_to_destroy { w with entities_to_destroy := [] }
      w1 ids h

/-- Witness for C9: a prefab declaring Transform and Camera is created into a
fresh world; the new id lands in `cameras`; destroying it leaves `cameras`
unchanged. -/
theorem camera_entities_never_removed_witness :
    WorldWF (EntityComponentSystem.new 1
      [("p", (⟨some 1, some 2, none, none⟩ : Prefab Nat Nat Nat Nat))]) ∧
    (⟨some 1, some 2, none, none⟩ : Prefab Nat Nat Nat Nat).camera.isSome ∧
    ((⟨0, 0⟩ : EntityId) ∈
      (⟨⟨[0], [], 1, {⟨0, 0⟩}⟩, ⟨[some ⟨some 1, 0⟩]⟩, ⟨[none]⟩, ⟨[some ⟨some 2, 0⟩]⟩,
        ⟨[none]⟩, {⟨0, 0⟩}, [], [],
        [("p", ⟨some 1, some 2, none, none⟩)]⟩ :
        EntityComponentSystem Nat Nat Nat Nat).cameras) ∧
    ((⟨⟨[0], [0], 1, ∅⟩, ⟨[some ⟨none, 0⟩]⟩, ⟨[some ⟨none, 0⟩]⟩, ⟨[some ⟨none, 0⟩]⟩,
        ⟨[some ⟨none, 0⟩]⟩, {⟨0, 0⟩}, [], [],
        [("p", (⟨some 1, some 2, none, none⟩ : Prefab Nat Nat Nat Nat))]⟩ :
        EntityComponentSystem Nat Nat Nat Nat).cameras = {⟨0, 0⟩}) := by
  refine ⟨by decide, by decide, ?_, ?_⟩
  · exact camera_entities_never_removed.1
      (EntityComponentSystem.new 1 [("p", ⟨some 1, some 2, none, none⟩)]) _ "p"
      ⟨some 1, some 2, none, none⟩ ⟨0, 0⟩ (by decide) (by decide) (by decide) (by decide)
  · exact (camera_entities_never_removed.2.1
      (⟨⟨[0], [], 1, {⟨0, 0⟩}⟩, ⟨[some ⟨some 1, 0⟩]⟩, ⟨[none]⟩, ⟨[some ⟨some 2, 0⟩]⟩,
        ⟨[none]⟩, {⟨0, 0⟩}, [], [],
        [("p", ⟨some 1, some 2, none, none⟩)]⟩ : EntityComponentSystem Nat Nat Nat Nat)
      _ ⟨0, 0⟩ (by decide)).trans (by decide)

theorem allocate_dead {a : EntityAllocator} {e : EntityId} {id : EntityId}
    {a1 : EntityAllocator} (hdead : Dead a e) (h : a.allocate = .ok (id, a1)) :
    id ≠ e ∧ Dead a1 e := by
  obtain ⟨hea, hei, heg⟩ := hdead
  match hfree : a.free with
  | [] =>
    obtain ⟨hid, _, _, ha1⟩ := allocate_ok_mint hfree h
    have hne : id ≠ e := by
      intro he
      rw [← he, hid] at hei
      exact absurd hei (Nat.lt_irrefl _)
    refine ⟨hne, ?_, ?_, ?_⟩
    · rw [ha1]
      intro hmem
      rcases Finset.mem_insert.mp hmem with hmem | hmem
      · exact hne hmem.symm
      · exact hea hmem
    · rw [ha1]
      show e.index < (a.entries ++ [0]).length
      rw [List.length_append]
      simp only [List.length_singleton]
      omega
    · rw [ha1]
      show e.generation ≤ (a.entries ++ [0]).getD e.index 0
      rw [getD_append_lt _ _ _ _ hei]
      exact heg
  | i :: rest =>
    obtain ⟨hid, _, _, ha1⟩ := allocate_ok_reuse hfree h
    by_cases hie : i = e.index
    · have hgt : a.entries.getD i 0 + 1 > e.generation := by
        rw [hie]
        omega
      have hne : id ≠ e := by
        intro he
        rw [hid] at he
        have : a.entries.getD i 0 + 1 = e.generation := congrArg EntityId.generation he
        omega
      refine ⟨hne, ?_, ?_, ?_⟩
      · rw [ha1]
        intro hmem
        rcases Finset.mem_insert.mp hmem with hmem | hmem
        · exact hne hmem.symm
        · exact hea hmem
      · rw [ha1]
        show e.index < (a.entries.set i (a.entries.getD i 0 + 1)).length
        rw [List.length_set]
        exact hei
      · rw [ha1]
        show e.generation ≤ (a.entries.set i (a.entries.getD i 0 + 1)).getD e.index 0
        rw [← hie, getD_set_self _ _ _ _ (hie ▸ hei)]
        omega
    · have hne : id ≠ e := by
        intro he
        rw [hid] at he
        exact hie (congrArg EntityId.index he)
      refine ⟨hne, ?_, ?_, ?_⟩
      · rw [ha1]
        intro hmem
        rcases Finset.mem_insert.mp hmem with hmem | hmem
        · exact hne hmem.symm
        · exact hea hmem
      · rw [ha1]
        show e.index < (a.entries.set i (a.entries.getD i 0 + 1)).length
        rw [List.length_set]
        exact hei
      · rw [ha1]
        show e.generation ≤ (a.entries.set i (a.entries.getD i 0 + 1)).getD e.index 0
        rw [getD_set_ne _ _ _ _ _ hie]
        exact heg

theorem create_go_dead {T C K M : Type u} (e : EntityId) :
    ∀ (l : List String) (w w2 : EntityComponentSystem T C K M) (ids : List EntityId),
      Dead w.entity_allocator e →
      EntityComponentSystem.create_go w l = some (w2, ids) → ∀ c ∈ ids, c ≠ e := by
  intro l
  induction l with
  | nil =>
    intro w w2 ids _ h c hc
    simp only [EntityComponentSystem.create_go, Option.some.injEq, Prod.mk.injEq] at h
    rw [← h.2] at hc
    exact absurd hc (List.not_mem_nil c)
  | cons p rest ih =>
    intro w w2 ids hdead h c hc
    simp only [EntityComponentSystem.create_go] at h
    split at h
    · exact Option.noConfusion h
    · rename_i w1 id hstep
      split at h
      · exact Option.noConfusion h
      · rename_i w3 ids3 hrest
        simp only [Option.some.injEq, Prod.mk.injEq] at h
        obtain ⟨_, hids⟩ := h
        rw [← hids] at hc
        obtain ⟨pre, a1, _, hall, ha1⟩ := create_entity_ok hstep
        obtain ⟨hne, hdead1⟩ := allocate_dead hdead hall
        rcases List.mem_cons.mp hc with hc | hc
        · rw [hc]
          exact hne
        · exact ih w1 w3 ids3 (by rw [ha1]; exact hdead1) hrest c hc

theorem destroyedAt_isSystemEntity {T C K M : Type u}
    {w : EntityComponentSystem T C K M} {e : EntityId} (h : DestroyedAt w e) :
    ∀ k, isSystemEntity k w e = true := by
  obtain ⟨_, _, _, ht, hc, hk, hm⟩ := h
  have hT : w.has_transform e = true := by
    simp only [EntityComponentSystem.has_transform, ComponentSet.get, ht]
    simp
  have hC : w.has_controller e = true := by
    simp only [EntityComponentSystem.has_controller, ComponentSet.get, hc]
    simp
  have hM : w.has_mesh e = true := by
    simp only [EntityComponentSystem.has_mesh, ComponentSet.get, hm]
    simp
  intro k
  cases k with
  | control => simp [isSystemEntity, hT, hC]
  | render => simp [isSystemEntity, hT, hM]

theorem remove_preserves_not_mem {T C K M : Type u} (e : EntityId)
    (w : EntityComponentSystem T C K M) :
    ∀ (l : List EntityId) (sm : SystemManager), (∀ p ∈ sm, e ∉ p.2) →
      ∀ p ∈ removeEntitiesFromSystems l w sm, e ∉ p.2 := by
  intro l
  induction l with
  | nil => intro sm hsm p hp; exact hsm p hp
  | cons d rest ih =>
    intro sm hsm p hp
    rw [removeEntitiesFromSystems, List.foldl_cons] at hp
    refine ih _ ?_ p hp
    intro q hq
    obtain ⟨q0, hq0, hq0e⟩ := List.mem_map.mp hq
    rw [← hq0e]
    show e ∉ (if isSystemEntity q0.1 w d then q0.2.erase d else q0.2)
    split
    · intro hmem
      exact hsm q0 hq0 (Finset.mem_of_mem_erase hmem)
    · exact hsm q0 hq0

theorem remove_all_not_mem {T C K M : Type u} (e : EntityId)
    (w : EntityComponentSystem T C K M) (hall : ∀ k, isSystemEntity k w e = true) :
    ∀ (l : List EntityId) (sm : SystemManager), e ∈ l →
      ∀ p ∈ removeEntitiesFromSystems l w sm, e ∉ p.2 := by
  intro l
  induction l with
  | nil => intro sm hmem; exact absurd hmem (List.not_mem_nil e)
  | cons d rest ih =>
    intro sm hmem p hp
    rw [removeEntitiesFromSystems, List.foldl_cons] at hp
    by_cases hde : e ∈ rest
    · exact ih _ hde p hp
    · have hd : d = e := by
        rcases List.mem_cons.mp hmem with hm | hm
        · exact hm.symm
        · exact absurd hm hde
      subst hd
      refine remove_preserves_not_mem d w rest _ ?_ p hp
      intro q hq
      obtain ⟨q0, hq0, hq0e⟩ := List.mem_map.mp hq
      rw [← hq0e]
      show d ∉ (if isSystemEntity q0.1 w d then q0.2.erase d else q0.2)
      rw [if_pos (hall q0.1)]
      exact Finset.not_mem_erase d q0.2

theorem add_preserves_not_mem {T C K M : Type u} (e : EntityId)
    (w : EntityComponentSystem T C K M) :
    ∀ (l : List EntityId) (sm : SystemManager), (∀ c ∈ l, c ≠ e) →
      (∀ p ∈ sm, e ∉ p.2) → ∀ p ∈ addEntitiesToSystems l w sm, e ∉ p.2 := by
  intro l
  induction l with
  | nil => intro sm _ hsm p hp; exact hsm p hp
  | cons c rest ih =>
    intro sm hfresh hsm p hp
    rw [addEntitiesToSystems, List.foldl_cons] at hp
    refine ih _ (fun c2 hc2 => hfresh c2 (List.mem_cons_of_mem c hc2)) ?_ p hp
    intro q hq
    obtain ⟨q0, hq0, hq0e⟩ := List.mem_map.mp hq
    rw [← hq0e]
    show e ∉ (if isSystemEntity q0.1 w c then insert c q0.2 else q0.2)
    split
    · intro hmem
      rcases Finset.mem_insert.mp hmem with hmem | hmem
      · exact hfresh c (List.mem_cons_self c rest) hmem.symm
      · exact hsm q0 hq0 hmem
    · exact hsm q0 hq0

/-- C1: during the destruction phase of a tick every drained id is removed
from every system's matching set (after the clears, `has_component` holds for
every registered kind at the destroyed id, so `is_system_entity` is true for
every system and the id is erased from each set), and the creation phase only
adds freshly allocated ids, which can never equal a destroyed id — so an
entity queued for destruction is in no system's matching set once the tick
completes.  The systems' `run` calls receive the matching sets behind an
immutable borrow and are quantified here as arbitrary world transformations
`runf`. -/
theorem destroyed_entity_left_all_systems {T C K M : Type u}
    (runf : SystemKind → EntityComponentSystem T C K M → EntityComponentSystem T C K M)
    (sm : SystemManager) (w : EntityComponentSystem T C K M) (E : EntityId)
    (hwf : WorldWF w) (hq : E ∈ w.entities_to_destroy)
    (sm' : SystemManager) (w' : EntityComponentSystem T C K M)
    (h : tick runf sm w = some (sm', w')) :
    ∀ p ∈ sm', E ∉ p.2 := by
  simp only [tick] at h
  split at h
  · exact Option.noConfusion h
  · rename_i w1 destroyed hdes
    split at h
    · exact Option.noConfusion h
    · rename_i w2 created hcre
      simp only [Option.some.injEq, Prod.mk.injEq] at h
      obtain ⟨hsm, _⟩ := h
      have hgo : EntityComponentSystem.destroy_go { w with entities_to_destroy := [] }
          w.entities_to_destroy = some (w1, destroyed) := hdes
      have hwf0 : WorldWF { w with entities_to_destroy := [] } := hwf
      obtain ⟨hwf1, _, hdest, _, _, _⟩ := destroy_go_inv _ _ _ _ hwf0 hgo
      have hE1 : DestroyedAt w1 E := hdest E hq
      have hEdes : E ∈ destroyed := by
        rw [destroy_go_ids _ _ _ _ hgo]
        exact hq
      have hsm1 : ∀ p ∈ removeEntitiesFromSystems destroyed w1 sm, E ∉ p.2 :=
        remove_all_not_mem E w1 (destroyedAt_isSystemEntity hE1) destroyed sm hEdes
      have hdead : Dead w1.entity_allocator E := by
        obtain ⟨h1, h2, h3, _⟩ := hE1
        exact ⟨h1, h2, Nat.le_of_eq h3.symm⟩
      have hcgo : EntityComponentSystem.create_go { w1 with entities_to_create := [] }
          w1.entities_to_create = some (w2, created) := hcre
      have hfresh : ∀ c ∈ created, c ≠ E :=
        create_go_dead E w1.entities_to_create { w1 with entities_to_create := [] }
          w2 created hdead hcgo
      rw [← hsm]
      exact add_preserves_not_mem E w2 created _ hfresh hsm1

/-- Witness for C1: a world whose single live entity (holding all four
components and sitting in both systems' matching sets) is queued for
destruction; after one tick it belongs to no system's matching set. -/
theorem destroyed_entity_left_all_systems_witness :
    WorldWF (⟨⟨[0], [], 1, {⟨0, 0⟩}⟩, ⟨[some ⟨some 1, 0⟩]⟩, ⟨[some ⟨some 1, 0⟩]⟩,
      ⟨[some ⟨some 1, 0⟩]⟩, ⟨[some ⟨some 1, 0⟩]⟩, {⟨0, 0⟩}, [], [⟨0, 0⟩],
      []⟩ : EntityComponentSystem Nat Nat Nat Nat) ∧
    (⟨0, 0⟩ : EntityId) ∈
      (⟨⟨[0], [], 1, {⟨0, 0⟩}⟩, ⟨[some ⟨some 1, 0⟩]⟩, ⟨[some ⟨some 1, 0⟩]⟩,
        ⟨[some ⟨some 1, 0⟩]⟩, ⟨[some ⟨some 1, 0⟩]⟩, {⟨0, 0⟩}, [], [⟨0, 0⟩],
        []⟩ : EntityComponentSystem Nat Nat Nat Nat).entities_to_destroy ∧
    ∀ p ∈ [(SystemKind.control, (∅ : Finset EntityId)), (SystemKind.render, ∅)],
      (⟨0, 0⟩ : EntityId) ∉ p.2 := by
  refine ⟨by decide, by decide, ?_⟩
  exact destroyed_entity_left_all_systems (fun _ x => x)
    [(SystemKind.control, {⟨0, 0⟩}), (SystemKind.render, {⟨0, 0⟩})]
    (⟨⟨[0], [], 1, {⟨0, 0⟩}⟩, ⟨[some ⟨some 1, 0⟩]⟩, ⟨[some ⟨some 1, 0⟩]⟩,
      ⟨[some ⟨some 1, 0⟩]⟩, ⟨[some ⟨some 1, 0⟩]⟩, {⟨0, 0⟩}, [], [⟨0, 0⟩],
      []⟩ : EntityComponentSystem Nat Nat Nat Nat) ⟨0, 0⟩ (by decide) (by decide)
    [(SystemKind.control, ∅), (SystemKind.render, ∅)]
    (⟨⟨[0], [0], 1, ∅⟩, ⟨[some ⟨none, 0⟩]⟩, ⟨[some ⟨none, 0⟩]⟩, ⟨[some ⟨none, 0⟩]⟩,
      ⟨[some ⟨none, 0⟩]⟩, {⟨0, 0⟩}, [], [], []⟩ : EntityComponentSystem Nat Nat Nat Nat)
    (by decide)
